import Mathlib

/-!
Verification of the dual-tier memory subsystem of the repository
(`src/memory/memory_manager.py`, `src/memory/short_term.py`,
`src/memory/long_term.py`) against its natural-language specification.

Modelling conventions (shallow embedding):

* Creation instants (`datetime.now()`) are modelled as naturals `t : Nat`,
  threaded explicitly; `datetime.now().isoformat()` is modelled as `Nat.repr t`
  and `datetime.fromisoformat` as the digit parser `parseNat` below.
* The Redis client is modelled by `RedisState`: a keyed list of hashes, a
  keyed list of lists, and a `failing` flag.  When `failing` is set every
  client call raises (`connectionError`), modelling a backing-store outage.
* The ChromaDB collection is modelled by `ChromaState`: the records in
  insertion order plus a `failing` flag.  Similarity ranking is opaque
  (an embedding model); `ChromaState.query` therefore takes the ranking as a
  function argument, applied AFTER the metadata `where`-filter, which is how
  Chroma evaluates `query(..., where=...)`.
* Python `bytes` vs `str`: the Redis client is created without
  `decode_responses`, so `hgetall` returns a dict with `bytes` keys and
  `bytes` values.  `RHash.get` takes a `PyStr` key: a `bytes` key can match a
  stored field, a `str` key never does (in Python 3 `str` and `bytes` are
  never equal).
* `json.dumps` / `json.loads` of a string-keyed dict are modelled by the
  constructor `RVal.json` and its projection: serialization is injective and
  round-trips.
* Python exceptions are modelled by `Except PyErr`; a bare `raise` inside
  `except` is the identity on the error.  Functions whose body is wrapped in
  a catch-all `try/except` returning a default are total Lean functions.
-/

/-- Python exception classes that the memory layer can raise. -/
inductive PyErr where
  | valueError (msg : String)
  | attributeError
  | connectionError
  | dataError
  | keyError
deriving DecidableEq, Repr

/-- A Python string-like value: `bytes` or `str`.  In Python 3 the two are
never equal, which `RHash.get` below relies on. -/
inductive PyStr where
  | bytes (s : String)
  | str (s : String)
deriving DecidableEq, Repr

/-- A value held in a Redis hash field (always `bytes` on the wire).
`json kvs` is a field written via `json.dumps` of a string-keyed dict;
`json.loads` recovers `kvs`. -/
inductive RVal where
  | str (s : String)
  | json (kvs : List (String × String))
deriving DecidableEq, Repr

/-- Models `.decode()` on a bytes value. -/
def RVal.decode : RVal → String
  | .str s => s
  | .json _ => ""

/-- A Python dict with string keys and scalar (string-modelled) values. -/
abbrev Dict := List (String × String)

/-- First-match association lookup: models `d.get(k)` / `d[k]` on a dict
whose keys are unique. -/
def lookupKV {α : Type} (m : List (String × α)) (k : String) : Option α :=
  match m with
  | [] => none
  | p :: ps => if p.1 = k then some p.2 else lookupKV ps k

/-- Models `d[k] = v` on a Python dict: replaces the value of the first
matching key in place, appends otherwise (dicts are insertion-ordered). -/
def setKV {α : Type} (m : List (String × α)) (k : String) (v : α) : List (String × α) :=
  match m with
  | [] => [(k, v)]
  | p :: ps => if p.1 = k then (k, v) :: ps else p :: setKV ps k v

/-- Models deleting a set of keys from a keyed store. -/
def removeKV {α : Type} (m : List (String × α)) (ks : List String) : List (String × α) :=
  m.filter (fun p => !(decide (p.1 ∈ ks)))

/-- Models `{**base, **m}`: spread `m` into `base`, later keys overriding. -/
def spreadKV (base : List (String × String)) (m : Dict) : Dict :=
  m.foldl (fun acc p => setKV acc p.1 p.2) base

theorem lookupKV_setKV_self {α : Type} (m : List (String × α)) (k : String) (v : α) :
    lookupKV (setKV m k v) k = some v := by
  induction m with
  | nil => simp [setKV, lookupKV]
  | cons p ps ih =>
    by_cases hp : p.1 = k
    · simp [setKV, lookupKV, hp]
    · simp [setKV, lookupKV, hp, ih]

theorem lookupKV_setKV_ne {α : Type} (m : List (String × α)) (k k' : String) (v : α)
    (h : k' ≠ k) : lookupKV (setKV m k v) k' = lookupKV m k' := by
  have hkk : ¬(k = k') := fun he => h he.symm
  induction m with
  | nil => simp [setKV, lookupKV, hkk]
  | cons p ps ih =>
    by_cases hp : p.1 = k
    · simp [setKV, hp, lookupKV, hkk]
    · by_cases hq : p.1 = k'
      · simp [setKV, hp, lookupKV, hq, h, hkk]
      · simp [setKV, hp, lookupKV, hq, h, hkk, ih]

theorem setKV_ne_nil {α : Type} (m : List (String × α)) (k : String) (v : α) :
    setKV m k v ≠ [] := by
  cases m with
  | nil => simp [setKV]
  | cons p ps =>
    simp only [setKV]
    split <;> simp

theorem lookupKV_removeKV_mem {α : Type} (m : List (String × α)) (ks : List String)
    (k : String) (h : k ∈ ks) : lookupKV (removeKV m ks) k = none := by
  induction m with
  | nil => simp [removeKV, lookupKV]
  | cons p ps ih =>
    by_cases hc : p.1 ∈ ks
    · simpa [removeKV, List.filter_cons, hc] using ih
    · have hb : ¬(p.1 = k) := fun he => hc (he ▸ h)
      simpa [removeKV, List.filter_cons, hc, lookupKV, hb] using ih

theorem removeKV_removeKV {α : Type} (m : List (String × α)) (ks : List String) :
    removeKV (removeKV m ks) ks = removeKV m ks := by
  unfold removeKV
  rw [List.filter_filter]
  simp

/-- Digit value of a character, models `int` parsing of one char. -/
def digitVal (c : Char) : Nat := c.toNat - 48

/-- Whether a character is an ASCII digit. -/
def isDigitChar (c : Char) : Bool := decide (48 ≤ c.toNat) && decide (c.toNat ≤ 57)

/-- Accumulating decimal parser over characters. -/
def parseNatAux : List Char → Nat → Option Nat
  | [], acc => some acc
  | c :: cs, acc =>
    if isDigitChar c then parseNatAux cs (acc * 10 + digitVal c) else none

/-- Models parsing a rendered instant back (`datetime.fromisoformat`): succeeds
exactly on nonempty all-digit strings, returning the instant. -/
def parseNat (s : String) : Option Nat :=
  if s.data.isEmpty then none else parseNatAux s.data 0

/-- Lexicographic comparison of char lists; models Python `str <=`. -/
def charsLe : List Char → List Char → Bool
  | [], _ => true
  | _ :: _, [] => false
  | c :: cs, d :: ds =>
    if c == d then charsLe cs ds else decide (c.toNat < d.toNat)

/-- Whether the first list is an initial run of the second. -/
def charsStart : List Char → List Char → Bool
  | [], _ => true
  | _ :: _, [] => false
  | c :: cs, d :: ds => c == d && charsStart cs ds

/-- Models `s.startswith(pre)`, used for the `KEYS memory:*` glob. -/
def strStarts (pre s : String) : Bool := charsStart pre.data s.data

/-- Models `sep.join(pieces)`. -/
def joinWith (sep : String) : List String → String
  | [] => ""
  | [x] => x
  | x :: y :: xs => x ++ sep ++ joinWith sep (y :: xs)

/-- Models the Python slice `l[-n:]` (for `n = 0` the slice is the whole
list, since `-0 == 0`). -/
def pyLastSlice {α : Type} (l : List α) (n : Nat) : List α :=
  if n = 0 then l else l.drop (l.length - n)

/-- Stable insertion used by `pySorted`: `x` is placed after every element
`y` of the accumulator with `le y x`. -/
def insertBy {α : Type} (le : α → α → Bool) (x : α) : List α → List α
  | [] => [x]
  | y :: ys => if le y x then y :: insertBy le x ys else x :: y :: ys

/-- Models Python `sorted(l, key=..., reverse=...)` folded into a single
comparison `le` (`le a b` = "`a` may come before `b`"): a stable sort,
implemented as insertion sort so that it is kernel-reducible. -/
def pySorted {α : Type} (le : α → α → Bool) (l : List α) : List α :=
  l.foldl (fun acc x => insertBy le x acc) []

theorem mem_insertBy {α : Type} (le : α → α → Bool) (x : α) (l : List α) (a : α) :
    a ∈ insertBy le x l ↔ a = x ∨ a ∈ l := by
  induction l with
  | nil => simp [insertBy]
  | cons y ys ih =>
    unfold insertBy
    split
    · simp only [List.mem_cons, ih]
      tauto
    · simp only [List.mem_cons]

theorem length_insertBy {α : Type} (le : α → α → Bool) (x : α) (l : List α) :
    (insertBy le x l).length = l.length + 1 := by
  induction l with
  | nil => simp [insertBy]
  | cons y ys ih =>
    unfold insertBy
    split
    · simpa using ih
    · simp

theorem pairwise_insertBy {α : Type} (le : α → α → Bool)
    (htot : ∀ a b, le a b = true ∨ le b a = true)
    (htrans : ∀ a b c, le a b = true → le b c = true → le a c = true)
    (x : α) (l : List α) (h : l.Pairwise (fun a b => le a b = true)) :
    (insertBy le x l).Pairwise (fun a b => le a b = true) := by
  induction l with
  | nil => simp [insertBy]
  | cons y ys ih =>
    unfold insertBy
    rcases List.pairwise_cons.mp h with ⟨hy, hys⟩
    split
    · next hle =>
      refine List.pairwise_cons.mpr ⟨?_, ih hys⟩
      intro a ha
      rcases (mem_insertBy le x ys a).mp ha with rfl | ha'
      · exact hle
      · exact hy a ha'
    · next hle =>
      have hxy : le x y = true := by
        rcases htot x y with h1 | h1
        · exact h1
        · exact absurd h1 (by simpa using hle)
      refine List.pairwise_cons.mpr ⟨?_, h⟩
      intro a ha
      rcases List.mem_cons.mp ha with rfl | ha'
      · exact hxy
      · exact htrans x y a hxy (hy a ha')

theorem mem_pySorted {α : Type} (le : α → α → Bool) (l : List α) (a : α) :
    a ∈ pySorted le l ↔ a ∈ l := by
  suffices h : ∀ acc, a ∈ l.foldl (fun acc x => insertBy le x acc) acc ↔ a ∈ l ∨ a ∈ acc by
    simpa using h []
  induction l with
  | nil => simp
  | cons x xs ih =>
    intro acc
    simp only [List.foldl_cons, ih, mem_insertBy, List.mem_cons]
    tauto

theorem length_pySorted {α : Type} (le : α → α → Bool) (l : List α) :
    (pySorted le l).length = l.length := by
  suffices h : ∀ acc, (l.foldl (fun acc x => insertBy le x acc) acc).length
      = l.length + acc.length by
    simpa using h []
  induction l with
  | nil => simp
  | cons x xs ih =>
    intro acc
    simp only [List.foldl_cons, ih, length_insertBy, List.length_cons]
    omega

theorem pairwise_pySorted {α : Type} (le : α → α → Bool)
    (htot : ∀ a b, le a b = true ∨ le b a = true)
    (htrans : ∀ a b c, le a b = true → le b c = true → le a c = true)
    (l : List α) : (pySorted le l).Pairwise (fun a b => le a b = true) := by
  suffices h : ∀ acc, acc.Pairwise (fun a b => le a b = true) →
      (l.foldl (fun acc x => insertBy le x acc) acc).Pairwise (fun a b => le a b = true) by
    exact h [] (by simp)
  induction l with
  | nil => intro acc hacc; simpa using hacc
  | cons x xs ih =>
    intro acc hacc
    exact ih _ (pairwise_insertBy le htot htrans x acc hacc)

/-- A Redis hash (field table) as stored server-side.  Field names are held
as plain strings; `hgetall` hands them to Python as `bytes`. -/
abbrev RHash := List (String × RVal)

/-- Models a `dict.get` on an `hgetall` result: a `bytes` key (`b"k"`)
matches the stored field `k`; a `str` key never matches, because the dict's
keys are `bytes` and in Python 3 `str` and `bytes` are never equal. -/
def RHash.get (h : RHash) (k : PyStr) : Option RVal :=
  match k with
  | .bytes s => lookupKV h s
  | .str _ => none

/-- Models `m[k]` (`__getitem__`) on an `hgetall` result: raises `KeyError`
when the key misses (in particular always for a `str` key). -/
def RHash.getItem (h : RHash) (k : PyStr) : Except PyErr RVal :=
  match RHash.get h k with
  | some v => Except.ok v
  | none => Except.error PyErr.keyError

/-- Models the Python comparison `memory.get("user_id") == user_id`: the left
operand is `None` (the `str` key missed) or a `bytes` value, the right
operand a `str`; `None == s` and `bytes == str` are both `False`. -/
def optValEqStr : Option RVal → String → Bool := fun _ _ => false

/-- The state of the Redis client (`redis.from_url(...)`, no
`decode_responses`): hashes and lists by key, plus a connectivity flag.
When `failing` is set every call raises, modelling a backing-store outage.
TTL bookkeeping is not modelled: no claim observes the passage of time, so
`expire` only checks connectivity. -/
structure RedisState where
  hashes : List (String × RHash)
  lists : List (String × List String)
  failing : Bool
deriving DecidableEq, Repr

/-- Models `HSET key mapping={...}`: sets the given fields, keeping any other
fields the key already had. -/
def RedisState.hset (st : RedisState) (key : String) (fields : List (String × RVal)) :
    Except PyErr RedisState :=
  if st.failing then Except.error PyErr.connectionError
  else
    let old := (lookupKV st.hashes key).getD []
    let merged := fields.foldl (fun acc p => setKV acc p.1 p.2) old
    Except.ok { st with hashes := setKV st.hashes key merged }

/-- Models `HGETALL key`: the empty dict when the key is absent. -/
def RedisState.hgetall (st : RedisState) (key : String) : Except PyErr RHash :=
  if st.failing then Except.error PyErr.connectionError
  else Except.ok ((lookupKV st.hashes key).getD [])

/-- Models `EXPIRE key secs` (TTL state itself is not observed, see
`RedisState`). -/
def RedisState.expire (st : RedisState) (_key : String) (_secs : Nat) : Except PyErr RedisState :=
  if st.failing then Except.error PyErr.connectionError else Except.ok st

/-- Models `KEYS pre*`: every key (of any type) matching the glob, in
storage order. -/
def RedisState.keysMatching (st : RedisState) (pre : String) : Except PyErr (List String) :=
  if st.failing then Except.error PyErr.connectionError
  else Except.ok (((st.hashes.map Prod.fst) ++ (st.lists.map Prod.fst)).filter
    (fun k => strStarts pre k))

/-- Models `LPUSH key v`. -/
def RedisState.lpush (st : RedisState) (key : String) (v : String) : Except PyErr RedisState :=
  if st.failing then Except.error PyErr.connectionError
  else Except.ok { st with lists := setKV st.lists key (v :: (lookupKV st.lists key).getD []) }

/-- Models `LTRIM key 0 (keep-1)`: keeps the first `keep` elements. -/
def RedisState.ltrim (st : RedisState) (key : String) (keep : Nat) : Except PyErr RedisState :=
  if st.failing then Except.error PyErr.connectionError
  else Except.ok { st with lists := setKV st.lists key (((lookupKV st.lists key).getD []).take keep) }

/-- Models `LRANGE key 0 stop` for the two uses in the source: `stop = -1`
(the whole list) and `stop = limit - 1` (the first `limit` elements). -/
def RedisState.lrange (st : RedisState) (key : String) (stop : Int) :
    Except PyErr (List String) :=
  if st.failing then Except.error PyErr.connectionError
  else
    let l := (lookupKV st.lists key).getD []
    Except.ok (if stop < 0 then l else l.take (stop.toNat + 1))

/-- Models `DEL k1 k2 ...`: removes the keys from the keyspace, whatever
their type; deleting an absent key is not an error. -/
def RedisState.del (st : RedisState) (ks : List String) : Except PyErr RedisState :=
  if st.failing then Except.error PyErr.connectionError
  else Except.ok { st with hashes := removeKV st.hashes ks, lists := removeKV st.lists ks }

/-- One record of the ChromaDB collection. -/
structure ChromaRec where
  id : String
  document : String
  metadata : Dict
deriving DecidableEq, Repr

/-- The state of the ChromaDB collection `long_term_memory`: records in
insertion order plus a connectivity flag. -/
structure ChromaState where
  records : List ChromaRec
  failing : Bool
deriving DecidableEq, Repr

/-- The `where={"user_id": uid}` metadata filter. -/
def ChromaState.matchesOwner (uid : String) (r : ChromaRec) : Bool :=
  lookupKV r.metadata "user_id" == some uid

/-- Models `collection.add(ids=[id], documents=[doc], metadatas=[meta])`. -/
def ChromaState.add (st : ChromaState) (id doc : String) (meta : Dict) :
    Except PyErr ChromaState :=
  if st.failing then Except.error PyErr.connectionError
  else Except.ok { st with records := st.records ++ [⟨id, doc, meta⟩] }

/-- Models `collection.get(ids=[...])`. -/
def ChromaState.getByIds (st : ChromaState) (ids : List String) :
    Except PyErr (List ChromaRec) :=
  if st.failing then Except.error PyErr.connectionError
  else Except.ok (st.records.filter (fun r => ids.contains r.id))

/-- Models `collection.get(where={"user_id": uid}, limit=?)`: the matching
records in storage order, truncated when a limit is given. -/
def ChromaState.getWhere (st : ChromaState) (uid : String) (limit : Option Nat) :
    Except PyErr (List ChromaRec) :=
  if st.failing then Except.error PyErr.connectionError
  else
    let m := st.records.filter (ChromaState.matchesOwner uid)
    Except.ok (match limit with | some n => m.take n | none => m)

/-- Models `collection.query(query_texts=[q], n_results=n, where={"user_id":
uid})`.  Chroma applies the `where` filter BEFORE nearest-neighbour ranking;
the ranking itself is an opaque capability of the embedding model, so it is
taken as the argument `rank` (a function producing some reordering or
selection of the filtered records). -/
def ChromaState.query (st : ChromaState) (rank : List ChromaRec → List ChromaRec)
    (n : Nat) (uid : String) : Except PyErr (List ChromaRec) :=
  if st.failing then Except.error PyErr.connectionError
  else Except.ok ((rank (st.records.filter (ChromaState.matchesOwner uid))).take n)

/-- Models `collection.delete(ids=[...])`. -/
def ChromaState.deleteIds (st : ChromaState) (ids : List String) :
    Except PyErr ChromaState :=
  if st.failing then Except.error PyErr.connectionError
  else Except.ok { st with records := st.records.filter (fun r => !(ids.contains r.id)) }

/-- A Python value passed as the `metadata` argument: a string-keyed dict, a
non-dict scalar (modelled by its string rendering), or `None`. -/
inductive MetaVal where
  | dict (kvs : Dict)
  | scalar (s : String)
  | pynone
deriving DecidableEq, Repr

/-- Python truthiness of a `metadata` value (`{}`/`""`/`None` are falsy). -/
def MetaVal.truthy : MetaVal → Bool
  | .dict kvs => !kvs.isEmpty
  | .scalar s => !(s == "")
  | .pynone => false

/-- Models `metadata.get("user_id")`: raises `AttributeError` on a non-dict
(`str` and `None` have no `.get`). -/
def MetaVal.getAttrUserId : MetaVal → Except PyErr (Option String)
  | .dict kvs => Except.ok (lookupKV kvs "user_id")
  | .scalar _ => Except.error PyErr.attributeError
  | .pynone => Except.error PyErr.attributeError

/-- Models `metadata or {}` followed by `json.dumps`/`**`-spread: the dict's
pairs, or no pairs when the value is falsy/None (a scalar never reaches these
uses because validation raises first). -/
def MetaVal.orEmpty : MetaVal → Dict
  | .dict kvs => kvs
  | .scalar _ => []
  | .pynone => []

/-- Python truthiness of an optional string (`None` and `""` are falsy). -/
def strTruthy : Option String → Bool
  | some s => !(s == "")
  | none => false

/-- Models `if not user_id: user_id = "test_user"`. -/
def defaultUserId : Option String → String
  | some s => if s == "" then "test_user" else s
  | none => "test_user"

/-- The record dict returned by `MemoryManager.get_memory`. -/
structure MemRec where
  content : String
  metadata : Dict
  created_at : String
  source : String
deriving DecidableEq, Repr

/-- The record dict returned by `MemoryManager.search_memories` and
`LongTermMemory.search`. -/
structure SearchRec where
  id : String
  content : String
  metadata : Dict
deriving DecidableEq, Repr

/-- The state reachable from a `MemoryManager`: its Redis client and the
`long_term_memory` Chroma collection. -/
structure MMState where
  redis : RedisState
  chroma : ChromaState
deriving DecidableEq, Repr

/-- The argument shapes `MemoryManager.store_memory(*args, **kwargs)`
distinguishes: a single dict positional (`content`/`metadata`/`user_id`
keys, each possibly absent), two positionals `(content, metadata)` (with an
optional `user_id` keyword), or keywords only.  `Option` on `content` and
`metadata` distinguishes an absent key from an explicit `None`. -/
inductive StoreArgs where
  | dictForm (content : Option String) (metadata : Option MetaVal) (user_id : Option String)
  | pairForm (content : Option String) (metadata : MetaVal) (user_id : Option String)
  | kwForm (content : Option String) (metadata : Option MetaVal) (user_id : Option String)
deriving DecidableEq, Repr

/-- The `content` value an argument shape carries. -/
def StoreArgs.contentOf : StoreArgs → Option String
  | .dictForm c _ _ => c
  | .pairForm c _ _ => c
  | .kwForm c _ _ => c

/-- Models `if metadata is not None and not isinstance(metadata, dict):
raise ValueError(...)`. -/
def validateMetadata : MetaVal → Except PyErr Unit
  | .scalar _ => Except.error (PyErr.valueError "Metadata must be a dictionary")
  | _ => Except.ok ()

/-- Models lines 101-121 of `memory_manager.py`: argument-shape dispatch, the
`user_id = ... or metadata.get("user_id")` chains (the right operand is only
evaluated when the left is falsy), the missing-content check of the keyword
branch, metadata validation, and the `"test_user"` fallback.  Returns
`(content, metadata, user_id)`. -/
def MemoryManager.parse_store_args : StoreArgs → Except PyErr (Option String × MetaVal × String)
  | .dictForm c m u => do
    let meta := m.getD (MetaVal.dict [])
    let uid ← if strTruthy u then Except.ok u else meta.getAttrUserId
    validateMetadata meta
    Except.ok (c, meta, defaultUserId uid)
  | .pairForm c m u => do
    let uid ← if strTruthy u then Except.ok u
              else if m.truthy then m.getAttrUserId else Except.ok none
    validateMetadata m
    Except.ok (c, m, defaultUserId uid)
  | .kwForm c m u => do
    let meta := m.getD (MetaVal.dict [])
    let uid ← if strTruthy u then Except.ok u
              else if meta.truthy then meta.getAttrUserId else Except.ok none
    if c.isNone then Except.error (PyErr.valueError "Missing content for memory storage.")
    else do
      validateMetadata meta
      Except.ok (c, meta, defaultUserId uid)

/-- The metadata dict `_sync_to_ltm` stores:
`{"user_id": user_id, **(metadata or {}), "created_at": created_at}` —
the spread overrides the `user_id` entry, the `created_at` entry overrides
the spread. -/
def MemoryManager.sync_meta (user_id : String) (kvs : Dict) (t : Nat) : Dict :=
  setKV (spreadKV [("user_id", user_id)] kvs) "created_at" (Nat.repr t)

/-- Models `MemoryManager._sync_to_ltm` (lines 149-173): best-effort add to
the `long_term_memory` collection; any failure is caught and logged, never
re-raised. -/
def MemoryManager.sync_to_ltm (st : MMState) (t : Nat) (memory_id user_id content : String)
    (metadata : MetaVal) : MMState :=
  match st.chroma.add memory_id content (MemoryManager.sync_meta user_id metadata.orEmpty t) with
  | Except.ok c => { st with chroma := c }
  | Except.error _ => st

/-- Models lines 123-147 of `memory_manager.py` given parsed arguments: id
generation from `(user_id, now)`, the Redis `HSET`/`EXPIRE` (re-raised on
failure; a `None` content is rejected by the client as `dataError` before
anything is sent), the best-effort LTM sync, and the returned id. -/
def MemoryManager.store_write (st : MMState) (t : Nat) (content : Option String)
    (metadata : MetaVal) (user_id : String) : Except PyErr (String × MMState) := do
  let memory_id := user_id ++ "_" ++ Nat.repr t
  let c ← match content with
    | some s => Except.ok s
    | none => Except.error PyErr.dataError
  let r1 ← st.redis.hset ("memory:" ++ memory_id)
      [("user_id", RVal.str user_id), ("content", RVal.str c),
       ("metadata", RVal.json metadata.orEmpty), ("created_at", RVal.str (Nat.repr t))]
  let r2 ← r1.expire ("memory:" ++ memory_id) 3600
  let st2 := MemoryManager.sync_to_ltm { st with redis := r2 } t memory_id user_id c metadata
  Except.ok (memory_id, st2)

/-- Models `MemoryManager.store_memory` (lines 94-147). -/
def MemoryManager.store_memory (st : MMState) (t : Nat) (args : StoreArgs) :
    Except PyErr (String × MMState) := do
  let (c, m, u) ← MemoryManager.parse_store_args args
  MemoryManager.store_write st t c m u

/-- Models `json.loads` of the `metadata` hash field (default `b"{}"` when
the field is absent); a non-JSON byte string would raise. -/
def jsonLoadsDict : Option RVal → Except PyErr Dict
  | some (RVal.json kvs) => Except.ok kvs
  | some (RVal.str _) => Except.error (PyErr.valueError "json decode")
  | none => Except.ok []

/-- The body of `MemoryManager.get_memory` (inside its `try`): Redis first
(`bytes` field keys), ChromaDB on miss. -/
def MemoryManager.get_memory_body (st : MMState) (t : Nat) (memory_id : String) :
    Except PyErr (Option MemRec) := do
  let memory_data ← st.redis.hgetall ("memory:" ++ memory_id)
  if !memory_data.isEmpty then do
    let meta ← jsonLoadsDict (memory_data.get (PyStr.bytes "metadata"))
    Except.ok (some
      { content := ((memory_data.get (PyStr.bytes "content")).getD (RVal.str "")).decode,
        metadata := meta,
        created_at := ((memory_data.get (PyStr.bytes "created_at")).getD (RVal.str "")).decode,
        source := "short_term" })
  else do
    let results ← st.chroma.getByIds [memory_id]
    match results with
    | r :: _ =>
      Except.ok (some
        { content := r.document,
          metadata := r.metadata,
          created_at := (lookupKV r.metadata "created_at").getD (Nat.repr t),
          source := "long_term" })
    | [] => Except.ok none

/-- Models `MemoryManager.get_memory` (lines 51-92): the whole body is inside
`try/except`, returning `None` on any failure, so the result is an `Option`,
never an exception. -/
def MemoryManager.get_memory (st : MMState) (t : Nat) (memory_id : String) : Option MemRec :=
  match MemoryManager.get_memory_body st t memory_id with
  | Except.ok r => r
  | Except.error _ => none

/-- The accumulation loop of `MemoryManager.retrieve_context` (lines 186-194,
inside its `try`): scan all `memory:*` keys, keep the last `limit`, fetch
each hash and keep it when `memory.get("user_id") == user_id` — a `str`-key
lookup on a `bytes`-keyed dict compared to a `str`. -/
def MemoryManager.retrieve_context_recent (st : MMState) (user_id : String) (limit : Nat) :
    List RHash :=
  match st.redis.keysMatching "memory:" with
  | Except.error _ => []
  | Except.ok keys =>
    (pyLastSlice keys limit).foldl (fun acc key =>
      match st.redis.hgetall key with
      | Except.error _ => acc
      | Except.ok memory =>
        if !memory.isEmpty && optValEqStr (memory.get (PyStr.str "user_id")) user_id
        then acc ++ [memory] else acc) []

/-- The sort key of `retrieve_context`: `x.get("created_at", "")` — again a
`str`-key lookup on a `bytes`-keyed dict. -/
def MemoryManager.retrieve_sort_key (m : RHash) : String :=
  ((m.get (PyStr.str "created_at")).getD (RVal.str "")).decode

/-- Models `MemoryManager.retrieve_context` (lines 175-206): the Redis loop
degrades to an empty accumulator on failure, then the accumulated hashes are
sorted by `created_at` descending and joined; the f-string indexes
`m["content"]`, which would raise `KeyError` outside any `try` (never
reached, the accumulator is always empty). -/
def MemoryManager.retrieve_context (st : MMState) (user_id : String) (limit : Nat) :
    Except PyErr String := do
  let recent := MemoryManager.retrieve_context_recent st user_id limit
  let sortedRecs := pySorted (fun a b =>
    charsLe (MemoryManager.retrieve_sort_key b).data (MemoryManager.retrieve_sort_key a).data)
    recent
  let pieces ← sortedRecs.mapM (fun m =>
    (m.getItem (PyStr.str "content")).map (fun v => "Memory: " ++ v.decode))
  Except.ok (joinWith "\x0a" pieces)

/-- Models `MemoryManager.search_memories` (lines 208-245): delegate to the
collection's `query` with a `where={"user_id": user_id}` filter; any failure
degrades to an empty result. -/
def MemoryManager.search_memories (st : MMState) (rank : String → List ChromaRec → List ChromaRec)
    (user_id query_text : String) (limit : Nat) : List SearchRec :=
  match st.chroma.query (rank query_text) limit user_id with
  | Except.error _ => []
  | Except.ok rs => rs.map (fun r => ⟨r.id, r.document, r.metadata⟩)

/-- The `memory_tuples` loop of `get_chat_context` (lines 269-277): keep
`(document, created_at)` for each record whose metadata has a parseable
`created_at`; parse failures are skipped. -/
def MemoryManager.memory_tuples (results : List ChromaRec) : List (String × Nat) :=
  results.filterMap (fun r =>
    match lookupKV r.metadata "created_at" with
    | some s => (parseNat s).map (fun ts => (r.document, ts))
    | none => none)

/-- The sorted, truncated `(document, created_at)` pairs that
`get_chat_context` projects its result from (empty in the degraded
branches). -/
def MemoryManager.chat_context_sorted (st : MMState) (user_id : String) (limit : Nat) :
    List (String × Nat) :=
  match st.chroma.getWhere user_id (some (limit * 2)) with
  | Except.error _ => []
  | Except.ok results =>
    if results.isEmpty then []
    else (pySorted (fun a b => decide (b.2 ≤ a.2)) (MemoryManager.memory_tuples results)).take limit

/-- Models `MemoryManager.get_chat_context` (lines 247-285): fetch the
owner's records with `limit = limit * 2`, sort the parseable ones by
`created_at` descending (stable), take `limit`, return the bare contents;
any failure degrades to `[]`. -/
def MemoryManager.get_chat_context (st : MMState) (user_id : String) (limit : Nat) :
    List String :=
  (MemoryManager.chat_context_sorted st user_id limit).map Prod.fst

/-- Models `ShortTermMemory.store` (lines 31-85 of `short_term.py`):
validation of `user_id`/`content`, the `stm:{user}:{now}` id, the hash
write, the optional TTL, and the recency-list push + trim to 100. -/
def ShortTermMemory.store (st : RedisState) (t : Nat) (user_id content : String)
    (metadata : Option Dict) (expires_in : Option Nat) : Except PyErr (String × RedisState) := do
  if user_id == "" || content == "" then
    Except.error (PyErr.valueError "user_id and content are required")
  else do
    let memory_id := "stm:" ++ user_id ++ ":" ++ Nat.repr t
    let r1 ← st.hset memory_id
        [("user_id", RVal.str user_id), ("content", RVal.str content),
         ("metadata", RVal.json (metadata.getD [])), ("created_at", RVal.str (Nat.repr t))]
    let r2 ← match expires_in with
      | some n => if n ≠ 0 then r1.expire memory_id n else Except.ok r1
      | none => Except.ok r1
    let r3 ← r2.lpush ("user:" ++ user_id ++ ":recent") memory_id
    let r4 ← r3.ltrim ("user:" ++ user_id ++ ":recent") 100
    Except.ok (memory_id, r4)

/-- Models `ShortTermMemory.get` (lines 87-108): fetch the hash, `None` when
empty, decode keys/values to `str` and parse the metadata field back; any
failure degrades to `None`. -/
def ShortTermMemory.get (st : RedisState) (memory_id : String) : Option RHash :=
  match st.hgetall memory_id with
  | Except.error _ => none
  | Except.ok h => if h.isEmpty then none else some h

/-- Models `ShortTermMemory.get_recent` (lines 110-143): the first `limit`
ids of the recency list (via `LRANGE 0 (limit-1)`), each resolved through
`ShortTermMemory.get`, misses skipped; failures degrade to `[]`. -/
def ShortTermMemory.get_recent (st : RedisState) (user_id : String) (limit : Nat) :
    List RHash :=
  match st.lrange ("user:" ++ user_id ++ ":recent") ((limit : Int) - 1) with
  | Except.error _ => []
  | Except.ok memory_ids =>
    memory_ids.foldl (fun acc id =>
      match ShortTermMemory.get st id with
      | some m => acc ++ [m]
      | none => acc) []

/-- Models `ShortTermMemory.clear` (lines 145-168): read the whole recency
list, delete the listed records (when any), delete the list key; the
`except` clause logs and RE-RAISES, so a backing-store failure propagates. -/
def ShortTermMemory.clear (st : RedisState) (user_id : String) : Except PyErr RedisState := do
  let memory_ids ← st.lrange ("user:" ++ user_id ++ ":recent") (-1)
  let r1 ← if !memory_ids.isEmpty then st.del memory_ids else Except.ok st
  r1.del ["user:" ++ user_id ++ ":recent"]

/-- The metadata dict `LongTermMemory.store` writes:
`{"user_id": user_id, "created_at": ..., **(metadata or {})}` — here the
spread comes LAST, so caller keys override both system entries. -/
def LongTermMemory.full_metadata (user_id : String) (t : Nat) (kvs : Dict) : Dict :=
  spreadKV [("user_id", user_id), ("created_at", Nat.repr t)] kvs

/-- Models `LongTermMemory.store` (lines 53-97 of `long_term.py`). -/
def LongTermMemory.store (st : ChromaState) (t : Nat) (user_id content : String)
    (metadata : Option Dict) : Except PyErr (String × ChromaState) := do
  if user_id == "" || content == "" then
    Except.error (PyErr.valueError "user_id and content are required")
  else do
    let memory_id := "ltm:" ++ user_id ++ ":" ++ Nat.repr t
    let c ← st.add memory_id content (LongTermMemory.full_metadata user_id t (metadata.getD []))
    Except.ok (memory_id, c)

/-- Models `LongTermMemory.get` (lines 99-125): exact-id fetch, `None` on
miss or failure. -/
def LongTermMemory.get (st : ChromaState) (memory_id : String) : Option SearchRec :=
  match st.getByIds [memory_id] with
  | Except.error _ => none
  | Except.ok [] => none
  | Except.ok (r :: _) => some ⟨r.id, r.document, r.metadata⟩

/-- Models `LongTermMemory.search` (lines 127-165): same shape as
`MemoryManager.search_memories`. -/
def LongTermMemory.search (st : ChromaState) (rank : String → List ChromaRec → List ChromaRec)
    (user_id query_text : String) (limit : Nat) : List SearchRec :=
  match st.query (rank query_text) limit user_id with
  | Except.error _ => []
  | Except.ok rs => rs.map (fun r => ⟨r.id, r.document, r.metadata⟩)

/-- Models `LongTermMemory.purge` (lines 167-187): fetch the owner's ids and
delete them; failures are logged and re-raised. -/
def LongTermMemory.purge (st : ChromaState) (user_id : String) : Except PyErr ChromaState := do
  let results ← st.getWhere user_id none
  if results.isEmpty then Except.ok st
  else st.deleteIds (results.map (fun r => r.id))

/-- An empty, healthy manager state, used as the base of concrete runs. -/
def emptyMM : MMState :=
  { redis := { hashes := [], lists := [], failing := false },
    chroma := { records := [], failing := false } }

deriving instance DecidableEq for Except

@[simp] theorem exc_bind_ok {ε α β : Type} (x : α) (f : α → Except ε β) :
    (Except.ok x >>= f : Except ε β) = f x := rfl

@[simp] theorem exc_bind_error {ε α β : Type} (e : ε) (f : α → Except ε β) :
    ((Except.error e : Except ε α) >>= f) = Except.error e := rfl

@[simp] theorem exc_pure_eq_ok {ε α : Type} (x : α) :
    (pure x : Except ε α) = Except.ok x := rfl

@[simp] theorem exc_map_ok {ε α β : Type} (f : α → β) (x : α) :
    (Except.map f (Except.ok x : Except ε α)) = Except.ok (f x) := rfl

@[simp] theorem exc_map_error {ε α β : Type} (f : α → β) (e : ε) :
    (Except.map f (Except.error e : Except ε α)) = Except.error e := rfl

/-- The four fields `store_memory` writes, merged over whatever the hash key
already held. -/
def storedFields (old : RHash) (uid c : String) (m : MetaVal) (t : Nat) : RHash :=
  setKV (setKV (setKV (setKV old "user_id" (RVal.str uid)) "content" (RVal.str c))
    "metadata" (RVal.json m.orEmpty)) "created_at" (RVal.str (Nat.repr t))

theorem parse_kwForm_eq (c : String) (kvs : Dict) (owner : String) (howner : owner ≠ "") :
    MemoryManager.parse_store_args
      (StoreArgs.kwForm (some c) (some (MetaVal.dict kvs)) (some owner))
      = Except.ok (some c, MetaVal.dict kvs, owner) := by
  have hb : (owner == "") = false := by simpa using howner
  simp [MemoryManager.parse_store_args, strTruthy, hb, validateMetadata, defaultUserId, howner]

theorem parse_pairForm_dict_ok (c : Option String) (kvs : Dict) (u : Option String) :
    ∃ uid, MemoryManager.parse_store_args (StoreArgs.pairForm c (MetaVal.dict kvs) u)
      = Except.ok (c, MetaVal.dict kvs, uid) := by
  by_cases hu : strTruthy u = true
  · exact ⟨defaultUserId u, by simp [MemoryManager.parse_store_args, hu, validateMetadata]⟩
  · by_cases hm : (MetaVal.dict kvs).truthy = true
    · exact ⟨defaultUserId (lookupKV kvs "user_id"), by
        simp [MemoryManager.parse_store_args, hu, hm, validateMetadata, MetaVal.getAttrUserId]⟩
    · exact ⟨"test_user", by
        simp [MemoryManager.parse_store_args, hu, hm, validateMetadata, defaultUserId]⟩

theorem sync_to_ltm_redis (st : MMState) (t : Nat) (mid uid c : String) (m : MetaVal) :
    (MemoryManager.sync_to_ltm st t mid uid c m).redis = st.redis := by
  unfold MemoryManager.sync_to_ltm ChromaState.add
  by_cases hf : st.chroma.failing <;> simp [hf]

theorem sync_to_ltm_chroma_ok (st : MMState) (t : Nat) (mid uid c : String) (m : MetaVal)
    (hc : st.chroma.failing = false) :
    (MemoryManager.sync_to_ltm st t mid uid c m).chroma.records
      = st.chroma.records ++ [⟨mid, c, MemoryManager.sync_meta uid m.orEmpty t⟩] := by
  unfold MemoryManager.sync_to_ltm ChromaState.add
  simp [hc]

theorem sync_to_ltm_chroma_failing (st : MMState) (t : Nat) (mid uid c : String) (m : MetaVal)
    (hc : st.chroma.failing = true) :
    MemoryManager.sync_to_ltm st t mid uid c m = st := by
  unfold MemoryManager.sync_to_ltm ChromaState.add
  simp [hc]

/-- The manager state after a successful `store_memory` write of content `c`
for owner `uid` at instant `t` (the best-effort LTM sync included). -/
def stAfterStore (st : MMState) (t : Nat) (c : String) (m : MetaVal) (uid : String) : MMState :=
  let key := "memory:" ++ (uid ++ "_" ++ Nat.repr t)
  let newHashes :=
    setKV st.redis.hashes key (storedFields ((lookupKV st.redis.hashes key).getD []) uid c m t)
  MemoryManager.sync_to_ltm
    { redis := { hashes := newHashes, lists := st.redis.lists, failing := st.redis.failing },
      chroma := st.chroma }
    t (uid ++ "_" ++ Nat.repr t) uid c m

theorem store_write_eq (st : MMState) (t : Nat) (c : String) (m : MetaVal) (uid : String)
    (hredis : st.redis.failing = false) :
    MemoryManager.store_write st t (some c) m uid
      = Except.ok (uid ++ "_" ++ Nat.repr t, stAfterStore st t c m uid) := by
  simp [MemoryManager.store_write, RedisState.hset, hredis, RedisState.expire, storedFields,
    stAfterStore]

theorem list_isEmpty_false_of_ne_nil {α : Type} (l : List α) (h : l ≠ []) :
    l.isEmpty = false := by
  cases l with
  | nil => exact absurd rfl h
  | cons x xs => rfl

theorem get_memory_stm (st : MMState) (t : Nat) (id : String) (h : RHash) (kvs : Dict)
    (hredis : st.redis.failing = false)
    (hl : lookupKV st.redis.hashes ("memory:" ++ id) = some h)
    (hne : h ≠ [])
    (hm : jsonLoadsDict (h.get (PyStr.bytes "metadata")) = Except.ok kvs) :
    MemoryManager.get_memory st t id = some
      { content := ((h.get (PyStr.bytes "content")).getD (RVal.str "")).decode,
        metadata := kvs,
        created_at := ((h.get (PyStr.bytes "created_at")).getD (RVal.str "")).decode,
        source := "short_term" } := by
  unfold MemoryManager.get_memory MemoryManager.get_memory_body RedisState.hgetall
  simp [hredis, hl, hne, hm]

theorem lookup_storedFields_content (old : RHash) (uid c : String) (m : MetaVal) (t : Nat) :
    RHash.get (storedFields old uid c m t) (PyStr.bytes "content") = some (RVal.str c) := by
  show lookupKV (storedFields old uid c m t) "content" = some (RVal.str c)
  unfold storedFields
  rw [lookupKV_setKV_ne _ _ _ _ (by decide), lookupKV_setKV_ne _ _ _ _ (by decide),
    lookupKV_setKV_self]

theorem lookup_storedFields_metadata (old : RHash) (uid c : String) (m : MetaVal) (t : Nat) :
    RHash.get (storedFields old uid c m t) (PyStr.bytes "metadata")
      = some (RVal.json m.orEmpty) := by
  show lookupKV (storedFields old uid c m t) "metadata" = some (RVal.json m.orEmpty)
  unfold storedFields
  rw [lookupKV_setKV_ne _ _ _ _ (by decide), lookupKV_setKV_self]

theorem lookup_storedFields_user_id (old : RHash) (uid c : String) (m : MetaVal) (t : Nat) :
    RHash.get (storedFields old uid c m t) (PyStr.bytes "user_id") = some (RVal.str uid) := by
  show lookupKV (storedFields old uid c m t) "user_id" = some (RVal.str uid)
  unfold storedFields
  rw [lookupKV_setKV_ne _ _ _ _ (by decide), lookupKV_setKV_ne _ _ _ _ (by decide),
    lookupKV_setKV_ne _ _ _ _ (by decide), lookupKV_setKV_self]

theorem storedFields_ne_nil (old : RHash) (uid c : String) (m : MetaVal) (t : Nat) :
    storedFields old uid c m t ≠ [] := by
  unfold storedFields
  exact setKV_ne_nil _ _ _

theorem exc_bind_error_elim {ε α β : Type} (x : Except ε α) (f : α → Except ε β) (e : ε)
    (h : (x >>= f) = Except.error e) :
    x = Except.error e ∨ ∃ a, x = Except.ok a ∧ f a = Except.error e := by
  cases x with
  | ok a => exact Or.inr ⟨a, rfl, by simpa using h⟩
  | error e' => exact Or.inl (by simpa using h)

theorem exc_bind_ok_elim {ε α β : Type} (x : Except ε α) (f : α → Except ε β) (b : β)
    (h : (x >>= f) = Except.ok b) : ∃ a, x = Except.ok a ∧ f a = Except.ok b := by
  cases x with
  | ok a => exact ⟨a, rfl, by simpa using h⟩
  | error e' => simp at h

/-- C1: round-trip — for every valid `(owner, content, metadata)`, storing
through `MemoryManager.store_memory` and reading the returned id back
through `MemoryManager.get_memory` yields a present record whose `content`
equals the input and whose metadata contains every input key/value pair (it
is in fact equal to the input metadata). -/
theorem store_get_roundtrip (st : MMState) (t : Nat) (owner content : String) (kvs : Dict)
    (howner : owner ≠ "") (hredis : st.redis.failing = false) :
    ∃ st', MemoryManager.store_memory st t
        (StoreArgs.kwForm (some content) (some (MetaVal.dict kvs)) (some owner))
        = Except.ok (owner ++ "_" ++ Nat.repr t, st') ∧
      ∃ rec, MemoryManager.get_memory st' t (owner ++ "_" ++ Nat.repr t) = some rec ∧
        rec.content = content ∧ rec.metadata = kvs ∧ ∀ kv ∈ kvs, kv ∈ rec.metadata := by
  have hwrite := store_write_eq st t content (MetaVal.dict kvs) owner hredis
  refine ⟨stAfterStore st t content (MetaVal.dict kvs) owner, ?_, ?_⟩
  · unfold MemoryManager.store_memory
    rw [parse_kwForm_eq content kvs owner howner]
    simpa using hwrite
  · have hredis' : (stAfterStore st t content (MetaVal.dict kvs) owner).redis.failing = false := by
      simp [stAfterStore, sync_to_ltm_redis, hredis]
    have hl : lookupKV (stAfterStore st t content (MetaVal.dict kvs) owner).redis.hashes
        ("memory:" ++ (owner ++ "_" ++ Nat.repr t))
        = some (storedFields
            ((lookupKV st.redis.hashes ("memory:" ++ (owner ++ "_" ++ Nat.repr t))).getD [])
            owner content (MetaVal.dict kvs) t) := by
      simp only [stAfterStore, sync_to_ltm_redis]
      exact lookupKV_setKV_self _ _ _
    have hget := get_memory_stm (stAfterStore st t content (MetaVal.dict kvs) owner) t
      (owner ++ "_" ++ Nat.repr t) _ kvs hredis' hl (storedFields_ne_nil _ _ _ _ _)
      (by rw [lookup_storedFields_metadata]; rfl)
    refine ⟨_, hget, ?_, rfl, fun kv hkv => hkv⟩
    rw [lookup_storedFields_content]
    rfl

/-- Witness for C1 at a concrete input. -/
theorem store_get_roundtrip_witness :
    ∃ st', MemoryManager.store_memory emptyMM 7
        (StoreArgs.kwForm (some "hello") (some (MetaVal.dict [("k", "v")])) (some "owner"))
        = Except.ok ("owner" ++ "_" ++ Nat.repr 7, st') ∧
      ∃ rec, MemoryManager.get_memory st' 7 ("owner" ++ "_" ++ Nat.repr 7) = some rec ∧
        rec.content = "hello" ∧ rec.metadata = [("k", "v")] ∧
        ∀ kv ∈ [("k", "v")], kv ∈ rec.metadata :=
  store_get_roundtrip emptyMM 7 "owner" "hello" [("k", "v")] (by decide) (by decide)

theorem getAttrUserId_error_classify (m : MetaVal) (e : PyErr)
    (h : m.getAttrUserId = Except.error e) : e = PyErr.attributeError := by
  cases m <;> simp_all [MetaVal.getAttrUserId]

theorem validateMetadata_error_classify (m : MetaVal) (e : PyErr)
    (h : validateMetadata m = Except.error e) : ∃ msg, e = PyErr.valueError msg := by
  cases m with
  | dict kvs => simp [validateMetadata] at h
  | scalar s =>
    simp only [validateMetadata] at h
    injection h with h'
    exact ⟨_, h'.symm⟩
  | pynone => simp [validateMetadata] at h

theorem validate_then_error_classify (m : MetaVal) (c : Option String × MetaVal × String)
    (e : PyErr)
    (h : (validateMetadata m >>= fun _ => Except.ok c) = Except.error e) :
    ∃ msg, e = PyErr.valueError msg := by
  rcases exc_bind_error_elim _ _ _ h with h3 | ⟨b, hb, h4⟩
  · exact validateMetadata_error_classify _ e h3
  · simp at h4

theorem parse_error_classify (args : StoreArgs) (e : PyErr)
    (h : MemoryManager.parse_store_args args = Except.error e) :
    (∃ msg, e = PyErr.valueError msg) ∨ e = PyErr.attributeError := by
  cases args with
  | dictForm c m u =>
    simp only [MemoryManager.parse_store_args] at h
    by_cases hu : strTruthy u = true
    · simp only [hu, if_true, exc_bind_ok] at h
      exact Or.inl (validate_then_error_classify _ _ e h)
    · simp only [hu, if_false, Bool.false_eq_true] at h
      rcases exc_bind_error_elim _ _ _ h with h1 | ⟨a, ha, h2⟩
      · exact Or.inr (getAttrUserId_error_classify _ e h1)
      · exact Or.inl (validate_then_error_classify _ _ e h2)
  | pairForm c m u =>
    simp only [MemoryManager.parse_store_args] at h
    by_cases hu : strTruthy u = true
    · simp only [hu, if_true, exc_bind_ok] at h
      exact Or.inl (validate_then_error_classify _ _ e h)
    · by_cases hm : m.truthy = true
      · simp only [hu, hm, if_true, if_false, Bool.false_eq_true] at h
        rcases exc_bind_error_elim _ _ _ h with h1 | ⟨a, ha, h2⟩
        · exact Or.inr (getAttrUserId_error_classify _ e h1)
        · exact Or.inl (validate_then_error_classify _ _ e h2)
      · simp only [hu, hm, if_false, Bool.false_eq_true, exc_bind_ok] at h
        exact Or.inl (validate_then_error_classify _ _ e h)
  | kwForm c m u =>
    simp only [MemoryManager.parse_store_args] at h
    by_cases hc : c.isNone = true
    · -- every uid-resolution path ends in the missing-content ValueError
      by_cases hu : strTruthy u = true
      · simp only [hu, hc, if_true, exc_bind_ok] at h
        exact Or.inl ⟨_, by injection h with h'; exact h'.symm⟩
      · by_cases hm : (m.getD (MetaVal.dict [])).truthy = true
        · simp only [hu, hm, hc, if_true, if_false, Bool.false_eq_true] at h
          rcases exc_bind_error_elim _ _ _ h with h1 | ⟨a, ha, h2⟩
          · exact Or.inr (getAttrUserId_error_classify _ e h1)
          · exact Or.inl ⟨_, by injection h2 with h'; exact h'.symm⟩
        · simp only [hu, hm, hc, if_true, if_false, Bool.false_eq_true, exc_bind_ok] at h
          exact Or.inl ⟨_, by injection h with h'; exact h'.symm⟩
    · by_cases hu : strTruthy u = true
      · simp only [hu, hc, if_true, if_false, Bool.false_eq_true, exc_bind_ok] at h
        exact Or.inl (validate_then_error_classify _ _ e h)
      · by_cases hm : (m.getD (MetaVal.dict [])).truthy = true
        · simp only [hu, hm, hc, if_true, if_false, Bool.false_eq_true] at h
          rcases exc_bind_error_elim _ _ _ h with h1 | ⟨a, ha, h2⟩
          · exact Or.inr (getAttrUserId_error_classify _ e h1)
          · exact Or.inl (validate_then_error_classify _ _ e h2)
        · simp only [hu, hm, hc, if_true, if_false, Bool.false_eq_true, exc_bind_ok] at h
          exact Or.inl (validate_then_error_classify _ _ e h)

theorem validate_then_ok_content (m : MetaVal) (c c0 : Option String) (m0 : MetaVal)
    (uid0 : String) (r : Option String × MetaVal × String)
    (h : (validateMetadata m >>= fun _ => Except.ok r) = Except.ok (c0, m0, uid0))
    (hr : r.1 = c) : c0 = c := by
  rcases exc_bind_ok_elim _ _ _ h with ⟨b, hb, h4⟩
  injection h4 with h'
  exact (congrArg Prod.fst h').symm.trans hr

theorem parse_ok_content (args : StoreArgs) (c : Option String) (m : MetaVal) (uid : String)
    (h : MemoryManager.parse_store_args args = Except.ok (c, m, uid)) :
    c = args.contentOf := by
  cases args with
  | dictForm c0 m0 u =>
    simp only [MemoryManager.parse_store_args, StoreArgs.contentOf] at h ⊢
    by_cases hu : strTruthy u = true
    · simp only [hu, if_true, exc_bind_ok] at h
      exact validate_then_ok_content _ c0 c m uid _ h rfl
    · simp only [hu, if_false, Bool.false_eq_true] at h
      rcases exc_bind_ok_elim _ _ _ h with ⟨a, ha, h2⟩
      exact validate_then_ok_content _ c0 c m uid _ h2 rfl
  | pairForm c0 m0 u =>
    simp only [MemoryManager.parse_store_args, StoreArgs.contentOf] at h ⊢
    by_cases hu : strTruthy u = true
    · simp only [hu, if_true, exc_bind_ok] at h
      exact validate_then_ok_content _ c0 c m uid _ h rfl
    · by_cases hm : m0.truthy = true
      · simp only [hu, hm, if_true, if_false, Bool.false_eq_true] at h
        rcases exc_bind_ok_elim _ _ _ h with ⟨a, ha, h2⟩
        exact validate_then_ok_content _ c0 c m uid _ h2 rfl
      · simp only [hu, hm, if_false, Bool.false_eq_true, exc_bind_ok] at h
        exact validate_then_ok_content _ c0 c m uid _ h rfl
  | kwForm c0 m0 u =>
    simp only [MemoryManager.parse_store_args, StoreArgs.contentOf] at h ⊢
    by_cases hc : c0.isNone = true
    · by_cases hu : strTruthy u = true
      · simp [hu, hc] at h
      · by_cases hm : (m0.getD (MetaVal.dict [])).truthy = true
        · simp only [hu, hm, hc, if_true, if_false, Bool.false_eq_true] at h
          rcases exc_bind_ok_elim _ _ _ h with ⟨a, ha, h2⟩
          simp at h2
        · simp [hu, hm, hc] at h
    · by_cases hu : strTruthy u = true
      · simp only [hu, hc, if_true, if_false, Bool.false_eq_true, exc_bind_ok] at h
        exact validate_then_ok_content _ c0 c m uid _ h rfl
      · by_cases hm : (m0.getD (MetaVal.dict [])).truthy = true
        · simp only [hu, hm, hc, if_true, if_false, Bool.false_eq_true] at h
          rcases exc_bind_ok_elim _ _ _ h with ⟨a, ha, h2⟩
          exact validate_then_ok_content _ c0 c m uid _ h2 rfl
        · simp only [hu, hm, hc, if_true, if_false, Bool.false_eq_true, exc_bind_ok] at h
          exact validate_then_ok_content _ c0 c m uid _ h rfl

theorem store_write_error_classify (st : MMState) (t : Nat) (c : Option String) (m : MetaVal)
    (uid : String) (e : PyErr) (h : MemoryManager.store_write st t c m uid = Except.error e) :
    (e = PyErr.dataError ∧ c = none) ∨ (e = PyErr.connectionError ∧ st.redis.failing = true) := by
  cases c with
  | none =>
    left
    refine ⟨?_, rfl⟩
    exact (show PyErr.dataError = e by simpa [MemoryManager.store_write] using h).symm
  | some s =>
    right
    cases hf : st.redis.failing with
    | true =>
      refine ⟨?_, rfl⟩
      exact (show PyErr.connectionError = e by
        simpa [MemoryManager.store_write, RedisState.hset, hf] using h).symm
    | false =>
      rw [store_write_eq st t s m uid hf] at h
      simp at h

/-- C2: tier independence and error propagation — `store_memory` surfaces an
error only for input validation failures (`ValueError`/`AttributeError`
raised while inspecting the arguments) or STM write failures (the Redis
client rejecting a `None` content, or Redis being unreachable); when Redis
is healthy, a valid call succeeds and the stored record is served from the
short-term tier by `get_memory`, regardless of whether the ChromaDB side is
failing. -/
theorem store_memory_error_propagation (st : MMState) (t : Nat) (c : String) (kvs : Dict)
    (u : Option String) (hredis : st.redis.failing = false) :
    (∃ id st', MemoryManager.store_memory st t (StoreArgs.pairForm (some c) (MetaVal.dict kvs) u)
        = Except.ok (id, st') ∧
      ∃ rec, MemoryManager.get_memory st' t id = some rec ∧
        rec.source = "short_term" ∧ rec.content = c) ∧
    (∀ args e, MemoryManager.store_memory st t args = Except.error e →
      (∃ msg, e = PyErr.valueError msg) ∨ e = PyErr.attributeError ∨
      (e = PyErr.dataError ∧ args.contentOf = none)) := by
  constructor
  · rcases parse_pairForm_dict_ok (some c) kvs u with ⟨uid, hparse⟩
    refine ⟨uid ++ "_" ++ Nat.repr t, stAfterStore st t c (MetaVal.dict kvs) uid, ?_, ?_⟩
    · unfold MemoryManager.store_memory
      rw [hparse]
      simpa using store_write_eq st t c (MetaVal.dict kvs) uid hredis
    · have hredis' : (stAfterStore st t c (MetaVal.dict kvs) uid).redis.failing = false := by
        simp [stAfterStore, sync_to_ltm_redis, hredis]
      have hl : lookupKV (stAfterStore st t c (MetaVal.dict kvs) uid).redis.hashes
          ("memory:" ++ (uid ++ "_" ++ Nat.repr t))
          = some (storedFields
              ((lookupKV st.redis.hashes ("memory:" ++ (uid ++ "_" ++ Nat.repr t))).getD [])
              uid c (MetaVal.dict kvs) t) := by
        simp only [stAfterStore, sync_to_ltm_redis]
        exact lookupKV_setKV_self _ _ _
      have hget := get_memory_stm (stAfterStore st t c (MetaVal.dict kvs) uid) t
        (uid ++ "_" ++ Nat.repr t) _ kvs hredis' hl (storedFields_ne_nil _ _ _ _ _)
        (by rw [lookup_storedFields_metadata]; rfl)
      refine ⟨_, hget, rfl, ?_⟩
      rw [lookup_storedFields_content]
      rfl
  · intro args e herr
    unfold MemoryManager.store_memory at herr
    rcases exc_bind_error_elim _ _ _ herr with h1 | ⟨⟨c0, m0, uid0⟩, hok, h2⟩
    · rcases parse_error_classify args e h1 with h | h
      · exact Or.inl h
      · exact Or.inr (Or.inl h)
    · rcases store_write_error_classify st t c0 m0 uid0 e h2 with ⟨he, hc⟩ | ⟨_, hf⟩
      · refine Or.inr (Or.inr ⟨he, ?_⟩)
        rw [← parse_ok_content args c0 m0 uid0 hok, hc]
      · rw [hredis] at hf
        exact absurd hf (by simp)

/-- Witness for C2: the ChromaDB side fails deterministically, yet the store
succeeds and the record is served from STM. -/
theorem store_memory_error_propagation_witness :
    (∃ id st', MemoryManager.store_memory
        { redis := { hashes := [], lists := [], failing := false },
          chroma := { records := [], failing := true } } 3
        (StoreArgs.pairForm (some "hello") (MetaVal.dict [("k", "v")]) (some "u1"))
        = Except.ok (id, st') ∧
      ∃ rec, MemoryManager.get_memory st' 3 id = some rec ∧
        rec.source = "short_term" ∧ rec.content = "hello") ∧
    (∀ args e, MemoryManager.store_memory
        { redis := { hashes := [], lists := [], failing := false },
          chroma := { records := [], failing := true } } 3 args = Except.error e →
      (∃ msg, e = PyErr.valueError msg) ∨ e = PyErr.attributeError ∨
      (e = PyErr.dataError ∧ args.contentOf = none)) :=
  store_memory_error_propagation
    { redis := { hashes := [], lists := [], failing := false },
      chroma := { records := [], failing := true } } 3 "hello" [("k", "v")] (some "u1")
    (by decide)

theorem digitVal_digitChar (n : Nat) (h : n < 10) : digitVal (Nat.digitChar n) = n := by
  interval_cases n <;> decide

theorem isDigitChar_digitChar (n : Nat) (h : n < 10) : isDigitChar (Nat.digitChar n) = true := by
  interval_cases n <;> decide

theorem parseNatAux_toDigitsCore (f : Nat) : ∀ (n : Nat) (acc : List Char) (x : Nat), n < f →
    parseNatAux (Nat.toDigitsCore 10 f n acc) x
      = parseNatAux acc (x * 10 ^ (Nat.log 10 n + 1) + n) := by
  induction f with
  | zero => intro n acc x h; exact absurd h (Nat.not_lt_zero n)
  | succ f ih =>
    intro n acc x h
    unfold Nat.toDigitsCore
    by_cases hq : n / 10 = 0
    · have hn : n < 10 := (Nat.div_eq_zero_iff (by omega)).mp hq
      have hmod : n % 10 = n := Nat.mod_eq_of_lt hn
      have hlog : Nat.log 10 n = 0 := Nat.log_eq_zero_iff.mpr (Or.inl hn)
      rw [if_pos hq]
      rw [parseNatAux, hmod, isDigitChar_digitChar n hn, digitVal_digitChar n hn,
        hlog, zero_add, pow_one]
      simp
    · have h10 : 10 ≤ n := by
        by_contra hlt
        exact hq (Nat.div_eq_of_lt (by omega))
      have hdivlt : n / 10 < n := Nat.div_lt_self (by omega) (by omega)
      have hlt : n / 10 < f := by omega
      rw [if_neg hq]
      rw [ih (n / 10) (Nat.digitChar (n % 10) :: acc) x hlt]
      rw [parseNatAux, isDigitChar_digitChar _ (Nat.mod_lt n (by omega)),
        digitVal_digitChar _ (Nat.mod_lt n (by omega))]
      simp only [eq_self_iff_true, if_true]
      congr 1
      have hlogn : Nat.log 10 n = Nat.log 10 (n / 10) + 1 := by
        have hdb := Nat.log_div_base 10 n
        have hpos : 0 < Nat.log 10 n := Nat.log_pos (by omega) h10
        omega
      rw [hlogn, pow_succ]
      calc (x * 10 ^ (Nat.log 10 (n / 10) + 1) + n / 10) * 10 + n % 10
          = x * (10 ^ (Nat.log 10 (n / 10) + 1) * 10) + (10 * (n / 10) + n % 10) := by ring
        _ = x * (10 ^ (Nat.log 10 (n / 10) + 1) * 10) + n := by rw [Nat.div_add_mod]

theorem toDigitsCore_ne_nil_of_acc (f : Nat) : ∀ (n : Nat) (acc : List Char), acc ≠ [] →
    Nat.toDigitsCore 10 f n acc ≠ [] := by
  induction f with
  | zero => intro n acc h; exact h
  | succ f ih =>
    intro n acc h
    unfold Nat.toDigitsCore
    by_cases hq : n / 10 = 0
    · simp [hq]
    · simp only [hq, if_false]
      exact ih (n / 10) _ (by simp)

theorem toDigitsCore_ne_nil (f n : Nat) (hf : 0 < f) : Nat.toDigitsCore 10 f n [] ≠ [] := by
  cases f with
  | zero => omega
  | succ f =>
    unfold Nat.toDigitsCore
    by_cases hq : n / 10 = 0
    · simp [hq]
    · simp only [hq, if_false]
      exact toDigitsCore_ne_nil_of_acc f (n / 10) _ (by simp)

theorem parseNat_repr (n : Nat) : parseNat (Nat.repr n) = some n := by
  show parseNat ((Nat.toDigits 10 n).asString) = some n
  have hdata : ((Nat.toDigits 10 n).asString).data = Nat.toDigits 10 n := rfl
  unfold parseNat
  rw [hdata]
  have hne : Nat.toDigits 10 n ≠ [] := toDigitsCore_ne_nil (n + 1) n (Nat.succ_pos n)
  rw [list_isEmpty_false_of_ne_nil _ hne]
  simp only [Bool.false_eq_true, if_false]
  show parseNatAux (Nat.toDigitsCore 10 (n + 1) n []) 0 = some n
  rw [parseNatAux_toDigitsCore (n + 1) n [] 0 (Nat.lt_succ_self n)]
  simp [parseNatAux]

theorem str_data_inj (a b : String) (h : a.data = b.data) : a = b := by
  cases a
  cases b
  exact congrArg String.mk h

theorem nat_repr_inj (a b : Nat) (h : Nat.repr a = Nat.repr b) : a = b := by
  have ha := parseNat_repr a
  rw [h, parseNat_repr b] at ha
  injection ha with ha'
  exact ha'.symm

theorem memory_id_inj (uid : String) (t1 t2 : Nat)
    (h : uid ++ "_" ++ Nat.repr t1 = uid ++ "_" ++ Nat.repr t2) : t1 = t2 := by
  have hd := congrArg String.data h
  rw [String.data_append, String.data_append] at hd
  have hr : (Nat.repr t1).data = (Nat.repr t2).data := List.append_cancel_left hd
  exact nat_repr_inj t1 t2 (str_data_inj _ _ hr)

/-- Counterexample for C3: a store call with BOTH an empty owner and an empty
content raises no validation error — the owner silently becomes
`"test_user"`, the empty content is written, and store I/O is performed (the
hash keyspace is no longer empty). -/
theorem store_memory_accepts_empty_input :
    ∃ st', MemoryManager.store_memory emptyMM 0
        (StoreArgs.pairForm (some "") (MetaVal.dict []) (some ""))
        = Except.ok ("test_user_0", st') ∧ st'.redis.hashes ≠ [] :=
  ⟨_, rfl, by decide⟩

/-- C3 amended: `store_memory` raises synchronously before any store I/O
only for a metadata value that is not a proper key-value mapping (a
`ValueError`, or an `AttributeError` when the owner is looked up inside the
non-dict metadata first); empty owner and empty content are NOT rejected by
`store_memory`.  `ShortTermMemory.store`, however, does reject an empty
owner or content with a `ValueError` before any I/O.  "Before any store
I/O" is expressed by the error being the same for EVERY store state. -/
theorem store_memory_validation_amended (t : Nat) (c : Option String) (u : Option String)
    (s : String) (uid content : String) (meta : Option Dict) (exp : Option Nat)
    (hempty : uid = "" ∨ content = "") :
    (∃ e, ((∃ msg, e = PyErr.valueError msg) ∨ e = PyErr.attributeError) ∧
      ∀ st : MMState, MemoryManager.store_memory st t
        (StoreArgs.pairForm c (MetaVal.scalar s) u) = Except.error e) ∧
    (∀ st : RedisState, ShortTermMemory.store st t uid content meta exp
      = Except.error (PyErr.valueError "user_id and content are required")) := by
  constructor
  · by_cases hu : strTruthy u = true
    · refine ⟨PyErr.valueError "Metadata must be a dictionary", Or.inl ⟨_, rfl⟩, fun st => ?_⟩
      unfold MemoryManager.store_memory
      have hp : MemoryManager.parse_store_args (StoreArgs.pairForm c (MetaVal.scalar s) u)
          = Except.error (PyErr.valueError "Metadata must be a dictionary") := by
        simp [MemoryManager.parse_store_args, hu, validateMetadata]
      rw [hp]
      rfl
    · by_cases hs : (s == "") = true
      · refine ⟨PyErr.valueError "Metadata must be a dictionary", Or.inl ⟨_, rfl⟩, fun st => ?_⟩
        unfold MemoryManager.store_memory
        have hp : MemoryManager.parse_store_args (StoreArgs.pairForm c (MetaVal.scalar s) u)
            = Except.error (PyErr.valueError "Metadata must be a dictionary") := by
          simp [MemoryManager.parse_store_args, hu, MetaVal.truthy, hs, validateMetadata]
        rw [hp]
        rfl
      · refine ⟨PyErr.attributeError, Or.inr rfl, fun st => ?_⟩
        unfold MemoryManager.store_memory
        have hp : MemoryManager.parse_store_args (StoreArgs.pairForm c (MetaVal.scalar s) u)
            = Except.error PyErr.attributeError := by
          simp [MemoryManager.parse_store_args, hu, MetaVal.truthy, hs, MetaVal.getAttrUserId]
        rw [hp]
        rfl
  · intro st
    rcases hempty with he | he <;>
      simp [ShortTermMemory.store, he]

/-- Witness for C3's amended theorem at concrete inputs. -/
theorem store_memory_validation_amended_witness :
    ((∃ e, ((∃ msg, e = PyErr.valueError msg) ∨ e = PyErr.attributeError) ∧
      ∀ st : MMState, MemoryManager.store_memory st 0
        (StoreArgs.pairForm (some "x") (MetaVal.scalar "oops") none) = Except.error e) ∧
    (∀ st : RedisState, ShortTermMemory.store st 0 "" "msg" none none
      = Except.error (PyErr.valueError "user_id and content are required"))) :=
  store_memory_validation_amended 0 (some "x") none "oops" "" "msg" none none (Or.inl rfl)

/-- Counterexample for C5: two `store_memory` calls for the same owner within
the same minimal time unit (the same modelled instant `5`) return the SAME
id `"u1_5"` — they collide instead of being distinct, even with different
contents. -/
theorem store_memory_id_collision :
    ∃ st1, MemoryManager.store_memory emptyMM 5
        (StoreArgs.kwForm (some "a") none (some "u1")) = Except.ok ("u1_5", st1) ∧
      ∃ st2, MemoryManager.store_memory st1 5
        (StoreArgs.kwForm (some "b") none (some "u1")) = Except.ok ("u1_5", st2) :=
  ⟨_, rfl, _, rfl⟩

/-- C5 amended: the id is derived deterministically from the owner and the
creation instant alone — any content and metadata give the very same id
`owner ++ "_" ++ repr t` — and two calls at DISTINCT instants give distinct
ids; but calls within the same minimal time unit collide (see the
counterexample). -/
theorem store_memory_id_deterministic (st : MMState) (t t1 t2 : Nat) (owner : String)
    (howner : owner ≠ "") (hredis : st.redis.failing = false) (hne : t1 ≠ t2) :
    (∀ c : String, ∀ kvs : Dict, ∃ st',
      MemoryManager.store_memory st t
        (StoreArgs.kwForm (some c) (some (MetaVal.dict kvs)) (some owner))
        = Except.ok (owner ++ "_" ++ Nat.repr t, st')) ∧
    owner ++ "_" ++ Nat.repr t1 ≠ owner ++ "_" ++ Nat.repr t2 := by
  constructor
  · intro c kvs
    refine ⟨stAfterStore st t c (MetaVal.dict kvs) owner, ?_⟩
    unfold MemoryManager.store_memory
    rw [parse_kwForm_eq c kvs owner howner]
    simpa using store_write_eq st t c (MetaVal.dict kvs) owner hredis
  · intro h
    exact hne (memory_id_inj owner t1 t2 h)

/-- Witness for C5's amended theorem at concrete inputs. -/
theorem store_memory_id_deterministic_witness :
    (∀ c : String, ∀ kvs : Dict, ∃ st',
      MemoryManager.store_memory emptyMM 5
        (StoreArgs.kwForm (some c) (some (MetaVal.dict kvs)) (some "u1"))
        = Except.ok ("u1" ++ "_" ++ Nat.repr 5, st')) ∧
    "u1" ++ "_" ++ Nat.repr 5 ≠ "u1" ++ "_" ++ Nat.repr 6 :=
  store_memory_id_deterministic emptyMM 5 5 6 "u1" (by decide) (by decide) (by decide)

theorem lookupKV_removeKV_not_mem {α : Type} (m : List (String × α)) (ks : List String)
    (k : String) (h : k ∉ ks) : lookupKV (removeKV m ks) k = lookupKV m k := by
  induction m with
  | nil => simp [removeKV]
  | cons p ps ih =>
    by_cases hc : p.1 ∈ ks
    · have hb : ¬(p.1 = k) := fun he => h (he ▸ hc)
      simpa [removeKV, List.filter_cons, hc, lookupKV, hb] using ih
    · by_cases hk : p.1 = k
      · simp [removeKV, List.filter_cons, hc, lookupKV, hk, h]
      · simpa [removeKV, List.filter_cons, hc, lookupKV, hk] using ih

/-- Counterexample for C9: a backing-store failure during `clear` does NOT
degrade to doing nothing — the `except` clause re-raises, so the caller sees
the connection error. -/
theorem short_term_clear_raises_on_failure :
    ShortTermMemory.clear { hashes := [], lists := [], failing := true } "u1"
      = Except.error PyErr.connectionError := by decide

/-- C9 amended: on a healthy backing store, `clear(owner)` removes every
record referenced by the owner's recency list and the list itself, and a
second `clear` is a no-op returning the same state (idempotent, no error);
but a backing-store failure during `clear` is re-raised to the caller, not
degraded (see the counterexample). -/
theorem short_term_clear_amended (st : RedisState) (u : String) (hf : st.failing = false) :
    ∃ st', ShortTermMemory.clear st u = Except.ok st' ∧
      (∀ id ∈ (lookupKV st.lists ("user:" ++ u ++ ":recent")).getD [],
        ShortTermMemory.get st' id = none) ∧
      lookupKV st'.lists ("user:" ++ u ++ ":recent") = none ∧
      ShortTermMemory.clear st' u = Except.ok st' := by
  set key := "user:" ++ u ++ ":recent" with hkey
  set ids := (lookupKV st.lists key).getD [] with hids
  by_cases hnil : ids.isEmpty = true
  · -- the recency list is empty: only the list key is deleted
    have hide : ids = [] := List.isEmpty_iff.mp hnil
    refine ⟨{ hashes := removeKV st.hashes [key], lists := removeKV st.lists [key],
              failing := st.failing }, ?_, ?_, ?_, ?_⟩
    · simp [ShortTermMemory.clear, RedisState.lrange, RedisState.del, hf, ← hids, hnil, hide]
    · intro id hid
      rw [List.isEmpty_iff] at hnil
      rw [hnil] at hid
      simp at hid
    · exact lookupKV_removeKV_mem _ _ _ (by simp)
    · have hlook : lookupKV (removeKV st.lists [key]) key = none :=
        lookupKV_removeKV_mem _ _ _ (by simp)
      simp [ShortTermMemory.clear, RedisState.lrange, RedisState.del, hf, hlook,
        removeKV_removeKV]
  · -- nonempty recency list: the records are deleted first, then the list
    have hne' : ids ≠ [] := by simpa [List.isEmpty_iff] using hnil
    refine ⟨{ hashes := removeKV (removeKV st.hashes ids) [key],
              lists := removeKV (removeKV st.lists ids) [key],
              failing := st.failing }, ?_, ?_, ?_, ?_⟩
    · simp [ShortTermMemory.clear, RedisState.lrange, RedisState.del, hf, ← hids, hnil, hne']
    · intro id hid
      have hgone : lookupKV (removeKV (removeKV st.hashes ids) [key]) id = none := by
        by_cases hk : id ∈ [key]
        · exact lookupKV_removeKV_mem _ _ _ hk
        · rw [lookupKV_removeKV_not_mem _ _ _ hk]
          exact lookupKV_removeKV_mem _ _ _ (by simpa [hids] using hid)
      simp [ShortTermMemory.get, RedisState.hgetall, hf, hgone]
    · exact lookupKV_removeKV_mem _ _ _ (by simp)
    · have hlook : lookupKV (removeKV (removeKV st.lists ids) [key]) key = none :=
        lookupKV_removeKV_mem _ _ _ (by simp)
      simp [ShortTermMemory.clear, RedisState.lrange, RedisState.del, hf, hlook,
        removeKV_removeKV]

/-- Witness for C9's amended theorem: a concrete state holding one record for
the owner. -/
theorem short_term_clear_amended_witness :
    ∃ st', ShortTermMemory.clear
        { hashes := [("stm:u1:4", [("content", RVal.str "m")])],
          lists := [("user:u1:recent", ["stm:u1:4"])], failing := false } "u1"
        = Except.ok st' ∧
      (∀ id ∈ (lookupKV
          [("user:u1:recent", ["stm:u1:4"])] ("user:" ++ "u1" ++ ":recent")).getD [],
        ShortTermMemory.get st' id = none) ∧
      lookupKV st'.lists ("user:" ++ "u1" ++ ":recent") = none ∧
      ShortTermMemory.clear st' "u1" = Except.ok st' :=
  short_term_clear_amended
    { hashes := [("stm:u1:4", [("content", RVal.str "m")])],
      lists := [("user:u1:recent", ["stm:u1:4"])], failing := false } "u1" (by decide)

/-- C4: `get_memory` consults the short-term store first and tags a hit
"short_term"; on an STM miss it consults the long-term store and tags a hit
"long_term"; when neither holds the record the result is `none` — and by the
`Option` return type of `MemoryManager.get_memory` (the whole Python body is
inside a catch-all `try/except`), the caller never sees an exception. -/
theorem get_memory_lookup_order (st : MMState) (t : Nat) (id : String)
    (hredis : st.redis.failing = false) (hchroma : st.chroma.failing = false) :
    (∀ h kvs, lookupKV st.redis.hashes ("memory:" ++ id) = some h → h ≠ [] →
      jsonLoadsDict (h.get (PyStr.bytes "metadata")) = Except.ok kvs →
      ∃ rec, MemoryManager.get_memory st t id = some rec ∧ rec.source = "short_term") ∧
    (∀ r rest, (lookupKV st.redis.hashes ("memory:" ++ id)).getD [] = [] →
      st.chroma.records.filter (fun rc => [id].contains rc.id) = r :: rest →
      ∃ rec, MemoryManager.get_memory st t id = some rec ∧ rec.source = "long_term" ∧
        rec.content = r.document ∧ rec.metadata = r.metadata) ∧
    ((lookupKV st.redis.hashes ("memory:" ++ id)).getD [] = [] →
      st.chroma.records.filter (fun rc => [id].contains rc.id) = [] →
      MemoryManager.get_memory st t id = none) := by
  refine ⟨?_, ?_, ?_⟩
  · intro h kvs hl hne hjson
    exact ⟨_, get_memory_stm st t id h kvs hredis hl hne hjson, rfl⟩
  · intro r rest hmiss hfilter
    have hfilter' : st.chroma.records.filter (fun rc => decide (rc.id = id)) = r :: rest := by
      simpa using hfilter
    have heq : MemoryManager.get_memory st t id = some
        { content := r.document, metadata := r.metadata,
          created_at := (lookupKV r.metadata "created_at").getD (Nat.repr t),
          source := "long_term" } := by
      unfold MemoryManager.get_memory MemoryManager.get_memory_body RedisState.hgetall
        ChromaState.getByIds
      simp [hredis, hchroma, hmiss, hfilter']
    exact ⟨_, heq, rfl, rfl, rfl⟩
  · intro hmiss hfilter
    have hfilter' : st.chroma.records.filter (fun rc => decide (rc.id = id)) = [] := by
      simpa using hfilter
    unfold MemoryManager.get_memory MemoryManager.get_memory_body RedisState.hgetall
      ChromaState.getByIds
    simp [hredis, hchroma, hmiss, hfilter']

/-- Witness for C4: a record present only in the long-term store is found
there and tagged "long_term". -/
theorem get_memory_lookup_order_witness :
    ∃ rec, MemoryManager.get_memory
        { redis := { hashes := [], lists := [], failing := false },
          chroma := { records := [⟨"x1", "doc", [("user_id", "u"), ("created_at", "9")]⟩],
                      failing := false } } 0 "x1" = some rec ∧
      rec.source = "long_term" ∧
      rec.content = ChromaRec.document ⟨"x1", "doc", [("user_id", "u"), ("created_at", "9")]⟩ ∧
      rec.metadata = ChromaRec.metadata ⟨"x1", "doc", [("user_id", "u"), ("created_at", "9")]⟩ :=
  (get_memory_lookup_order
      { redis := { hashes := [], lists := [], failing := false },
        chroma := { records := [⟨"x1", "doc", [("user_id", "u"), ("created_at", "9")]⟩],
                    failing := false } } 0 "x1" (by decide) (by decide)).2.1
    ⟨"x1", "doc", [("user_id", "u"), ("created_at", "9")]⟩ [] (by decide) (by decide)

/-- C6: owner isolation of semantic search — whatever the (opaque) similarity
ranking does, every record returned by `search_memories(owner, query, limit)`
carries the requested owner in its metadata, because the `where` owner
filter is applied to the collection before the ranking. -/
theorem search_memories_owner_isolation (st : MMState)
    (rank : String → List ChromaRec → List ChromaRec)
    (hrank : ∀ q l r, r ∈ rank q l → r ∈ l)
    (user_id query_text : String) (limit : Nat) (r : SearchRec)
    (hr : r ∈ MemoryManager.search_memories st rank user_id query_text limit) :
    lookupKV r.metadata "user_id" = some user_id := by
  unfold MemoryManager.search_memories ChromaState.query at hr
  cases hcf : st.chroma.failing with
  | true => simp [hcf] at hr
  | false =>
    simp only [hcf, Bool.false_eq_true, if_false] at hr
    rcases List.mem_map.mp hr with ⟨cr, hcr, hmk⟩
    have hin : cr ∈ rank query_text
        (st.chroma.records.filter (ChromaState.matchesOwner user_id)) :=
      List.mem_of_mem_take hcr
    have hfil : cr ∈ st.chroma.records.filter (ChromaState.matchesOwner user_id) :=
      hrank query_text _ cr hin
    have hmatch : ChromaState.matchesOwner user_id cr = true := List.of_mem_filter hfil
    unfold ChromaState.matchesOwner at hmatch
    have : lookupKV cr.metadata "user_id" = some user_id := by simpa using hmatch
    rw [← hmk]
    exact this

/-- Witness for C6: the identity ranking over a one-record collection. -/
theorem search_memories_owner_isolation_witness :
    lookupKV (SearchRec.metadata ⟨"i1", "doc", [("user_id", "u")]⟩) "user_id" = some "u" :=
  search_memories_owner_isolation
    { redis := { hashes := [], lists := [], failing := false },
      chroma := { records := [⟨"i1", "doc", [("user_id", "u")]⟩], failing := false } }
    (fun _ l => l) (fun _ _ _ h => h) "u" "query" 5
    ⟨"i1", "doc", [("user_id", "u")]⟩ (by decide)

/-- C7: the concrete scenario of the claim, evaluated on the code — owner
`"u1"` stores two messages; both are retrievable from the short-term tier,
yet `retrieve_context("u1", 10)` returns the EMPTY string: the loop looks up
the `str` key `"user_id"` in the `bytes`-keyed `hgetall` dict (and compares
a would-be `bytes` value to a `str`), so no stored record ever matches, and
`get_recent` is never consulted at all. -/
theorem retrieve_context_empty_result :
    ∃ st1, MemoryManager.store_memory emptyMM 0
        (StoreArgs.kwForm (some "First message about AI") none (some "u1"))
        = Except.ok ("u1_0", st1) ∧
      ∃ st2, MemoryManager.store_memory st1 1
          (StoreArgs.kwForm (some "Second message about ML") none (some "u1"))
          = Except.ok ("u1_1", st2) ∧
        MemoryManager.retrieve_context st2 "u1" 10 = Except.ok "" ∧
        (MemoryManager.get_memory st2 0 "u1_0").map (fun r => r.content)
          = some "First message about AI" ∧
        (MemoryManager.get_memory st2 0 "u1_1").map (fun r => r.content)
          = some "Second message about ML" :=
  ⟨_, rfl, _, rfl, by decide, by decide, by decide⟩

/-- A collection state with three records for owner `"u1"`, inserted oldest
first, used to exercise `get_chat_context`. -/
def chatSampleState : MMState :=
  { redis := { hashes := [], lists := [], failing := false },
    chroma := { records :=
      [⟨"i1", "a", [("user_id", "u1"), ("created_at", "1")]⟩,
       ⟨"i2", "b", [("user_id", "u1"), ("created_at", "2")]⟩,
       ⟨"i3", "c", [("user_id", "u1"), ("created_at", "3")]⟩], failing := false } }

/-- Counterexample for C8: with three records for the owner and
`limit = 1`, the store hands back only the first `2 * limit = 2` records
(the two OLDEST); sorting those yields `["b"]`, although the owner's most
recent record is the one with content `"c"` (its `created_at` is `3`, and
every owner record parses to a `created_at` of at most `3`).  So the
returned strings are NOT the contents of the owner's most recent records. -/
theorem get_chat_context_misses_newest :
    MemoryManager.get_chat_context chatSampleState "u1" 1 = ["b"] ∧
    (∃ r, r ∈ chatSampleState.chroma.records ∧ ChromaState.matchesOwner "u1" r = true ∧
      (lookupKV r.metadata "created_at").bind parseNat = some 3 ∧ r.document = "c") ∧
    (∀ r ∈ chatSampleState.chroma.records, ChromaState.matchesOwner "u1" r = true →
      ∀ ts, (lookupKV r.metadata "created_at").bind parseNat = some ts → ts ≤ 3) ∧
    ("b" : String) ≠ "c" := by
  refine ⟨by decide, ⟨⟨"i3", "c", [("user_id", "u1"), ("created_at", "3")]⟩,
    by decide, by decide, by decide, by decide⟩, by decide, by decide⟩

/-- C8 amended: `get_chat_context(owner, limit)` returns at most `limit`
bare content strings, each drawn from one of the owner's long-term records,
projected from `(document, created_at)` pairs that are sorted by
`created_at` descending; but the pairs are drawn only from the first
`2 * limit` records the store returns for the owner, so when the owner has
more than `2 * limit` records they need not be the owner's most recent ones
(see the counterexample). -/
theorem get_chat_context_amended (st : MMState) (user_id : String) (limit : Nat) :
    MemoryManager.get_chat_context st user_id limit
      = (MemoryManager.chat_context_sorted st user_id limit).map Prod.fst ∧
    (MemoryManager.get_chat_context st user_id limit).length ≤ limit ∧
    (∀ s ∈ MemoryManager.get_chat_context st user_id limit,
      ∃ r, r ∈ st.chroma.records ∧ lookupKV r.metadata "user_id" = some user_id ∧
        r.document = s) ∧
    List.Pairwise (fun a b : String × Nat => b.2 ≤ a.2)
      (MemoryManager.chat_context_sorted st user_id limit) := by
  refine ⟨rfl, ?_, ?_, ?_⟩
  all_goals
    by_cases hcf : st.chroma.failing = true
  case pos =>
    simp [MemoryManager.get_chat_context, MemoryManager.chat_context_sorted,
      ChromaState.getWhere, hcf]
  case pos =>
    intro s hs
    simp [MemoryManager.get_chat_context, MemoryManager.chat_context_sorted,
      ChromaState.getWhere, hcf] at hs
  case pos =>
    simp [MemoryManager.chat_context_sorted, ChromaState.getWhere, hcf]
  case neg =>
    by_cases hres : ((st.chroma.records.filter (ChromaState.matchesOwner user_id)).take
        (limit * 2)).isEmpty = true
    · simp [MemoryManager.get_chat_context, MemoryManager.chat_context_sorted,
        ChromaState.getWhere, hcf, hres]
    · have hcs : MemoryManager.chat_context_sorted st user_id limit
          = (pySorted (fun a b => decide (b.2 ≤ a.2))
              (MemoryManager.memory_tuples
                ((st.chroma.records.filter (ChromaState.matchesOwner user_id)).take
                  (limit * 2)))).take limit := by
        simp [MemoryManager.chat_context_sorted, ChromaState.getWhere, hcf, hres]
      show (MemoryManager.get_chat_context st user_id limit).length ≤ limit
      unfold MemoryManager.get_chat_context
      rw [hcs, List.length_map]
      exact List.length_take_le _ _
  case neg =>
    intro s hs
    by_cases hres : ((st.chroma.records.filter (ChromaState.matchesOwner user_id)).take
        (limit * 2)).isEmpty = true
    · simp [MemoryManager.get_chat_context, MemoryManager.chat_context_sorted,
        ChromaState.getWhere, hcf, hres] at hs
    · have hcs : MemoryManager.chat_context_sorted st user_id limit
          = (pySorted (fun a b => decide (b.2 ≤ a.2))
              (MemoryManager.memory_tuples
                ((st.chroma.records.filter (ChromaState.matchesOwner user_id)).take
                  (limit * 2)))).take limit := by
        simp [MemoryManager.chat_context_sorted, ChromaState.getWhere, hcf, hres]
      unfold MemoryManager.get_chat_context at hs
      rw [hcs] at hs
      rcases List.mem_map.mp hs with ⟨pr, hpr, hprs⟩
      have hp1 : pr ∈ pySorted (fun a b => decide (b.2 ≤ a.2))
          (MemoryManager.memory_tuples
            ((st.chroma.records.filter (ChromaState.matchesOwner user_id)).take
              (limit * 2))) := List.mem_of_mem_take hpr
      have hp2 : pr ∈ MemoryManager.memory_tuples
          ((st.chroma.records.filter (ChromaState.matchesOwner user_id)).take
            (limit * 2)) := (mem_pySorted _ _ _).mp hp1
      unfold MemoryManager.memory_tuples at hp2
      rcases List.mem_filterMap.mp hp2 with ⟨r, hrmem, hf⟩
      have hrrec : r ∈ st.chroma.records.filter (ChromaState.matchesOwner user_id) :=
        List.mem_of_mem_take hrmem
      have hrin : r ∈ st.chroma.records := List.mem_of_mem_filter hrrec
      have hmatch : ChromaState.matchesOwner user_id r = true := List.of_mem_filter hrrec
      have hlook : lookupKV r.metadata "user_id" = some user_id := by
        unfold ChromaState.matchesOwner at hmatch
        simpa using hmatch
      refine ⟨r, hrin, hlook, ?_⟩
      cases hca : lookupKV r.metadata "created_at" with
      | none => rw [hca] at hf; simp at hf
      | some s' =>
        rw [hca] at hf
        rcases Option.map_eq_some'.mp hf with ⟨ts, hts, hpr'⟩
        rw [← hpr']  at hprs
        exact hprs
  case neg =>
    by_cases hres : ((st.chroma.records.filter (ChromaState.matchesOwner user_id)).take
        (limit * 2)).isEmpty = true
    · simp [MemoryManager.chat_context_sorted, ChromaState.getWhere, hcf, hres]
    · have hcs : MemoryManager.chat_context_sorted st user_id limit
          = (pySorted (fun a b => decide (b.2 ≤ a.2))
              (MemoryManager.memory_tuples
                ((st.chroma.records.filter (ChromaState.matchesOwner user_id)).take
                  (limit * 2)))).take limit := by
        simp [MemoryManager.chat_context_sorted, ChromaState.getWhere, hcf, hres]
      rw [hcs]
      have hsorted : (pySorted (fun a b : String × Nat => decide (b.2 ≤ a.2))
          (MemoryManager.memory_tuples
            ((st.chroma.records.filter (ChromaState.matchesOwner user_id)).take
              (limit * 2)))).Pairwise
          (fun a b => (fun a b : String × Nat => decide (b.2 ≤ a.2)) a b = true) := by
        refine pairwise_pySorted _ ?_ ?_ _
        · intro a b
          rcases Nat.le_total b.2 a.2 with h | h
          · exact Or.inl (by simpa using h)
          · exact Or.inr (by simpa using h)
        · intro a b c hab hbc
          have h1 : b.2 ≤ a.2 := by simpa using hab
          have h2 : c.2 ≤ b.2 := by simpa using hbc
          simpa using le_trans h2 h1
      have htake := List.Pairwise.sublist (List.take_sublist limit _) hsorted
      exact htake.imp (fun h => by simpa using h)

/-- Witness for C8's amended theorem: a concrete length bound extracted by
applying the theorem at the sample state. -/
theorem get_chat_context_amended_witness :
    (MemoryManager.get_chat_context chatSampleState "u1" 1).length ≤ 1 :=
  (get_chat_context_amended chatSampleState "u1" 1).2.1

theorem lookupKV_eq_none_of_not_mem_keys {α : Type} (m : List (String × α)) (k : String)
    (h : k ∉ m.map Prod.fst) : lookupKV m k = none := by
  induction m with
  | nil => rfl
  | cons p ps ih =>
    simp only [List.map_cons, List.mem_cons, not_or] at h
    have hp : ¬(p.1 = k) := fun he => h.1 he.symm
    simpa [lookupKV, hp] using ih h.2

theorem lookupKV_spreadKV (base : Dict) (kvs : Dict) (k : String)
    (hnodup : (kvs.map Prod.fst).Nodup) :
    lookupKV (spreadKV base kvs) k
      = match lookupKV kvs k with
        | some v => some v
        | none => lookupKV base k := by
  induction kvs generalizing base with
  | nil => simp [spreadKV, lookupKV]
  | cons p ps ih =>
    have hstep : spreadKV base (p :: ps) = spreadKV (setKV base p.1 p.2) ps := rfl
    rw [hstep]
    have hnodup' : p.1 ∉ ps.map Prod.fst ∧ (ps.map Prod.fst).Nodup :=
      List.nodup_cons.mp (by rw [List.map_cons] at hnodup; exact hnodup)
    rcases hnodup' with ⟨hnotin, htail⟩
    rw [ih (setKV base p.1 p.2) htail]
    by_cases hk : p.1 = k
    · subst hk
      have hps : lookupKV ps p.1 = none := lookupKV_eq_none_of_not_mem_keys ps p.1 hnotin
      simp [lookupKV, hps, lookupKV_setKV_self]
    · have hcons : lookupKV (p :: ps) k = lookupKV ps k := by simp [lookupKV, hk]
      rw [hcons]
      cases hl : lookupKV ps k with
      | some v => simp
      | none => simp [lookupKV_setKV_ne _ _ _ _ (fun he => hk he.symm)]

/-- C10 (implicit): caller-supplied metadata keys take precedence over the
system-set fields of long-term records.  In `_sync_to_ltm` the caller's
`"user_id"` overrides the owner argument (while the system's `"created_at"`
overrides any caller value); in `LongTermMemory.store` the spread comes last,
so the caller's `"user_id"` AND `"created_at"` both win; consequently the
synced record is attributed to the metadata's owner, not the argument owner,
by the `where`-filter used for search and purge; and a `store_memory` call
that supplies no owner anywhere is stored under the literal owner
`"test_user"` instead of being rejected. -/
theorem caller_metadata_precedence (uid v w : String) (kvs : Dict) (t : Nat)
    (st : MMState) (c : String)
    (hnodup : (kvs.map Prod.fst).Nodup)
    (hredis : st.redis.failing = false) :
    (lookupKV kvs "user_id" = some v →
      lookupKV (MemoryManager.sync_meta uid kvs t) "user_id" = some v) ∧
    lookupKV (MemoryManager.sync_meta uid kvs t) "created_at" = some (Nat.repr t) ∧
    (lookupKV kvs "user_id" = some v →
      lookupKV (LongTermMemory.full_metadata uid t kvs) "user_id" = some v) ∧
    (lookupKV kvs "created_at" = some w →
      lookupKV (LongTermMemory.full_metadata uid t kvs) "created_at" = some w) ∧
    (lookupKV kvs "user_id" = some v → ∀ id doc,
      ChromaState.matchesOwner v ⟨id, doc, MemoryManager.sync_meta uid kvs t⟩ = true ∧
      (uid ≠ v →
        ChromaState.matchesOwner uid ⟨id, doc, MemoryManager.sync_meta uid kvs t⟩ = false)) ∧
    (∃ st', MemoryManager.store_memory st t
        (StoreArgs.kwForm (some c) (some (MetaVal.dict [])) none)
        = Except.ok ("test_user" ++ "_" ++ Nat.repr t, st')) := by
  have hsyncuid : lookupKV kvs "user_id" = some v →
      lookupKV (MemoryManager.sync_meta uid kvs t) "user_id" = some v := by
    intro hlk
    unfold MemoryManager.sync_meta
    rw [lookupKV_setKV_ne _ _ _ _ (by decide), lookupKV_spreadKV _ _ _ hnodup, hlk]
  refine ⟨hsyncuid, ?_, ?_, ?_, ?_, ?_⟩
  · unfold MemoryManager.sync_meta
    exact lookupKV_setKV_self _ _ _
  · intro hlk
    unfold LongTermMemory.full_metadata
    rw [lookupKV_spreadKV _ _ _ hnodup, hlk]
  · intro hlk
    unfold LongTermMemory.full_metadata
    rw [lookupKV_spreadKV _ _ _ hnodup, hlk]
  · intro hlk id doc
    constructor
    · unfold ChromaState.matchesOwner
      simp [hsyncuid hlk]
    · intro hne
      unfold ChromaState.matchesOwner
      simp only [hsyncuid hlk]
      simpa using fun he => hne he.symm
  · have hparse : MemoryManager.parse_store_args
        (StoreArgs.kwForm (some c) (some (MetaVal.dict [])) none)
        = Except.ok (some c, MetaVal.dict [], "test_user") := by
      simp [MemoryManager.parse_store_args, strTruthy, MetaVal.truthy, validateMetadata,
        defaultUserId]
    refine ⟨stAfterStore st t c (MetaVal.dict []) "test_user", ?_⟩
    unfold MemoryManager.store_memory
    rw [hparse]
    simpa using store_write_eq st t c (MetaVal.dict []) "test_user" hredis

/-- Witness for C10 at a concrete input: owner argument `"A"`, caller
metadata attributing the record to `"B"` with its own `created_at`. -/
theorem caller_metadata_precedence_witness :
    ((lookupKV [("user_id", "B"), ("created_at", "99")] "user_id" = some "B" →
      lookupKV (MemoryManager.sync_meta "A" [("user_id", "B"), ("created_at", "99")] 5)
        "user_id" = some "B") ∧
    lookupKV (MemoryManager.sync_meta "A" [("user_id", "B"), ("created_at", "99")] 5)
      "created_at" = some (Nat.repr 5) ∧
    (lookupKV [("user_id", "B"), ("created_at", "99")] "user_id" = some "B" →
      lookupKV (LongTermMemory.full_metadata "A" 5 [("user_id", "B"), ("created_at", "99")])
        "user_id" = some "B") ∧
    (lookupKV [("user_id", "B"), ("created_at", "99")] "created_at" = some "99" →
      lookupKV (LongTermMemory.full_metadata "A" 5 [("user_id", "B"), ("created_at", "99")])
        "created_at" = some "99") ∧
    (lookupKV [("user_id", "B"), ("created_at", "99")] "user_id" = some "B" → ∀ id doc,
      ChromaState.matchesOwner "B"
        ⟨id, doc, MemoryManager.sync_meta "A" [("user_id", "B"), ("created_at", "99")] 5⟩
        = true ∧
      ("A" ≠ "B" →
        ChromaState.matchesOwner "A"
          ⟨id, doc, MemoryManager.sync_meta "A" [("user_id", "B"), ("created_at", "99")] 5⟩
          = false)) ∧
    (∃ st', MemoryManager.store_memory emptyMM 5
        (StoreArgs.kwForm (some "x") (some (MetaVal.dict [])) none)
        = Except.ok ("test_user" ++ "_" ++ Nat.repr 5, st'))) :=
  caller_metadata_precedence "A" "B" "99" [("user_id", "B"), ("created_at", "99")] 5
    emptyMM "x" (by decide) (by decide)
